import Mathlib

/-
Verification of the plate-based Game of Life controller (game-of-life.py).

The embedding models:
  * `read_state`         — thresholding an optical reading into a boolean grid;
  * `compute_next_state` — the cellular-automaton step (clipped Moore window);
  * `update_plate`       — as the ordered trace of hardware operations it issues
                           (`update_plate_ops`), plus an execution model `runOps`
                           that reflects the try/except around the excess dispense;
  * `main`               — the control loop, as a trace of events with an end state.

Grids are lists of rows; `cell`/`dcell` use out-of-range defaults the way the
theorems' hypotheses keep indices in range.
-/

namespace GoL

/-- The source's `OD_THRESHOLD = 0.3`, given in lowest terms so that the kernel
can evaluate comparisons against it; `OD_THRESHOLD_eq` certifies the value. -/
def OD_THRESHOLD : ℚ := Rat.mk' 3 10 (by norm_num) (by norm_num)

theorem OD_THRESHOLD_eq : OD_THRESHOLD = 3 / 10 := by
  rw [OD_THRESHOLD, Rat.mk'_eq_divInt, Rat.divInt_eq_div]; norm_num

def ALIVE_VOLUME : Nat := 100

def shape0 {α : Type} (g : List (List α)) : Nat := g.length

def shape1 {α : Type} (g : List (List α)) : Nat := (g.headD []).length

def cell (s : List (List Bool)) (r c : Nat) : Bool := (s.getD r []).getD c false

def dcell (d : List (List Int)) (r c : Nat) : Int := (d.getD r []).getD c 0

/-- `read_state(plate_reading)`: elementwise `plate_reading > OD_THRESHOLD`. -/
def read_state (g : List (List ℚ)) : List (List Bool) :=
  g.map (fun row => row.map (fun v => decide (OD_THRESHOLD < v)))

/-- The Python slice sum `state[r1:r2, c1:c2].sum()` (indices already clipped). -/
def sliceSum (s : List (List Bool)) (r1 r2 c1 c2 : Nat) : Nat :=
  ((List.range' r1 (r2 - r1)).map (fun nr =>
    ((List.range' c1 (c2 - c1)).filter (fun nc => cell s nr nc)).length)).sum

/-- `compute_next_state(state)`: for each cell, `living` is the clipped 3×3 window
sum minus the cell itself; rule: `<2` dead, `=2` keep, `=3` alive, `>3` dead.
In the source `max(row-1, 0)` is the truncated `row - 1` of `Nat`. -/
def compute_next_state (s : List (List Bool)) : List (List Bool) :=
  (List.range (shape0 s)).map (fun row =>
    (List.range (shape1 s)).map (fun column =>
      let living := sliceSum s (row - 1) (min (row + 2) (shape0 s))
                      (column - 1) (min (column + 2) (shape1 s))
                    - (if cell s row column then 1 else 0)
      if living < 2 then false
      else if living = 2 then cell s row column
      else if living = 3 then true
      else false))

/-- `next_state - current_state`, elementwise on the boolean grids. -/
def diffGrid (next cur : List (List Bool)) : List (List Int) :=
  List.zipWith (fun nrow crow =>
    List.zipWith (fun x y => (if x then (1 : Int) else 0) - (if y then 1 else 0)) nrow crow)
    next cur

/-- One hardware call issued by `update_plate`.  The plate operations record the
`column` of the loop iteration that issued them, the well ids, per-channel
volumes and channel list passed to `lh.dispense` / `lh.aspirate`. -/
inductive Op : Type where
  | pickUpTips : Op
  | aspirateTrough : List Nat → List Nat → Op
  | dispensePlate : Nat → List Nat → List Nat → List Nat → Op
  | aspiratePlate : Nat → List Nat → List Nat → List Nat → Op
  | dispenseTrough : List Nat → List Nat → Op
  | returnTips : Op
deriving DecidableEq, Repr

/-- One `+= ALIVE_VOLUME` update of the need/excess accumulator at index `i`. -/
def bump (f : Nat → Nat) (i : Nat) : Nat → Nat :=
  fun j => if j = i then f i + ALIVE_VOLUME else f j

/-- Body of the inner (row) loop of the need/excess accumulation:
`need[row] += V` on a `+1` entry, `excess[row] += V` on a `-1` entry. -/
def rowStep (d : List (List Int)) (column : Nat) (ne : (Nat → Nat) × (Nat → Nat))
    (row : Nat) : (Nat → Nat) × (Nat → Nat) :=
  if dcell d row column = 1 then (bump ne.1 row, ne.2)
  else if dcell d row column = -1 then (ne.1, bump ne.2 row)
  else ne

/-- Body of the outer (column) loop of the need/excess accumulation. -/
def colStep (d : List (List Int)) (ne : (Nat → Nat) × (Nat → Nat)) (column : Nat) :
    (Nat → Nat) × (Nat → Nat) :=
  (List.range (shape0 d)).foldl (rowStep d column) ne

/-- The need/excess accumulation loop of `update_plate`: columns outer, rows
inner.  (The Python lists have length 8; the model uses functions on `Nat`;
the theorems only read them at `row < 8 = diff.shape[0]`.) -/
def needExcess (d : List (List Int)) : (Nat → Nat) × (Nat → Nat) :=
  (List.range (shape1 d)).foldl (colStep d) (fun _ => 0, fun _ => 0)

/-- The rows `row < diff.shape[0]` with `diff[row, column] == v`, in increasing
order — exactly the channel list the per-column loops of `update_plate` build. -/
def plateBatch (d : List (List Int)) (v : Int) (column : Nat) : List Nat :=
  (List.range (shape0 d)).filter (fun row => decide (dcell d row column = v))

/-- The pre-aspirate from the trough: channels with `need > 0` (in channel
order), per-channel volume `need[channel]`; skipped when no channel qualifies. -/
def troughAspirateOps (d : List (List Int)) : List Op :=
  let need := (needExcess d).1
  let channels := (List.range 8).filter (fun ch => decide (0 < need ch))
  if 0 < channels.length then [Op.aspirateTrough channels (channels.map need)] else []

/-- The dispense batch for one column: wells with `diff == +1`, well id
`column * 8 + row`, volume `ALIVE_VOLUME` each; no op when the batch is empty. -/
def dispenseColOps (d : List (List Int)) (column : Nat) : List Op :=
  let channels := plateBatch d 1 column
  let well_ids := channels.map (fun row => column * 8 + row)
  let vols := channels.map (fun _ => ALIVE_VOLUME)
  if 0 < well_ids.length then [Op.dispensePlate column well_ids vols channels] else []

/-- The aspirate batch for one column: wells with `diff == -1`. -/
def aspirateColOps (d : List (List Int)) (column : Nat) : List Op :=
  let channels := plateBatch d (-1) column
  let well_ids := channels.map (fun row => column * 8 + row)
  let vols := channels.map (fun _ => ALIVE_VOLUME)
  if 0 < well_ids.length then [Op.aspiratePlate column well_ids vols channels] else []

/-- Forward sweep over columns dispensing into wells that came to life. -/
def dispenseOps (d : List (List Int)) : List Op :=
  ((List.range (shape1 d)).map (dispenseColOps d)).flatten

/-- Reverse sweep over columns aspirating from wells that died. -/
def aspirateOps (d : List (List Int)) : List Op :=
  ((List.range (shape1 d)).reverse.map (aspirateColOps d)).flatten

/-- The excess dispense back into the trough: channels with `excess > 0`,
per-channel volume `excess[channel]`; skipped when no channel qualifies. -/
def troughDispenseOps (d : List (List Int)) : List Op :=
  let excess := (needExcess d).2
  let channels := (List.range 8).filter (fun ch => decide (0 < excess ch))
  if 0 < channels.length then [Op.dispenseTrough channels (channels.map excess)] else []

/-- The full ordered sequence of hardware calls `update_plate` makes for a
transition grid `d`. -/
def update_plate_ops (d : List (List Int)) : List Op :=
  [Op.pickUpTips]
    ++ troughAspirateOps d
    ++ dispenseOps d
    ++ aspirateOps d
    ++ troughDispenseOps d
    ++ [Op.returnTips]

/-- Whether an op is the excess dispense back into the trough — the one call
`update_plate` wraps in try/except. -/
def isDispenseTrough : Op → Bool
  | Op.dispenseTrough _ _ => true
  | _ => false

/-- Execute a list of hardware calls against a failure oracle `fails`.
Returns the calls actually issued, and the op whose failure propagated (if any).
A failing excess dispense is caught (execution continues); any other failing
op raises, so the rest of the list — `lh.return_tips()` included — never runs. -/
def runOps (fails : Op → Bool) : List Op → List Op × Option Op
  | [] => ([], none)
  | op :: rest =>
    if fails op then
      if isDispenseTrough op then
        let r := runOps fails rest
        (op :: r.1, r.2)
      else ([op], some op)
    else
      let r := runOps fails rest
      (op :: r.1, r.2)

/-- An observable event of the control loop `main`. -/
inductive Ev : Type where
  | read : Nat → Ev
  | transfer : Op → Ev
  | stopLH : Ev
  | stopPR : Ev
deriving DecidableEq, Repr

/-- How a run of `main` ends: the fixed point was reached (`Terminated`),
`max_cycles` ran out (`Exhausted`), or a hardware error propagated out of
`update_plate` (`Aborted` — the uncaught exception leaves `main`). -/
inductive EndState : Type where
  | Terminated : EndState
  | Exhausted : EndState
  | Aborted : EndState
deriving DecidableEq, Repr

/-- The `while cycle < max_cycles` loop of `main`, from cycle number `cycle`
with `fuel = max_cycles - cycle` iterations left.  `readings cycle` is the
measurement grid the plate reader returns that cycle.  Produces the event
trace and the end state; the two teardown calls `lh.stop()` / `pr.stop()` run
after the loop, so an uncaught exception skips them. -/
def main_loop (readings : Nat → List (List ℚ)) (fails : Op → Bool) :
    Nat → Nat → List Ev × EndState
  | _, 0 => ([Ev.stopLH, Ev.stopPR], EndState.Exhausted)
  | cycle, fuel + 1 =>
    let cur := read_state (readings cycle)
    let next := compute_next_state cur
    if next = cur then
      ([Ev.read cycle, Ev.stopLH, Ev.stopPR], EndState.Terminated)
    else
      let d := diffGrid next cur
      let r := runOps fails (update_plate_ops d)
      match r.2 with
      | some _ => (Ev.read cycle :: r.1.map Ev.transfer, EndState.Aborted)
      | none =>
        let rest := main_loop readings fails (cycle + 1) fuel
        (Ev.read cycle :: (r.1.map Ev.transfer ++ rest.1), rest.2)

/-- `main(max_cycles)`: run the loop from cycle 0. -/
def main (readings : Nat → List (List ℚ)) (fails : Op → Bool) (max_cycles : Nat) :
    List Ev × EndState :=
  main_loop readings fails 0 max_cycles

/-! Observers used to state the claims. -/

/-- Number of `+1` entries in row `r` of the transition grid. -/
def plusCount (d : List (List Int)) (r : Nat) : Nat :=
  ((List.range (shape1 d)).filter (fun c => decide (dcell d r c = 1))).length

/-- Number of `-1` entries in row `r` of the transition grid. -/
def minusCount (d : List (List Int)) (r : Nat) : Nat :=
  ((List.range (shape1 d)).filter (fun c => decide (dcell d r c = -1))).length

/-- Number of living cells in the in-bounds Moore neighborhood of `(r, c)` —
the up-to-8 surrounding cells (Chebyshev distance 1, the cell itself excluded),
out-of-range positions omitted, no wraparound.  This is the spec's wording,
to be compared with the window sum the code computes. -/
def mooreCount (s : List (List Bool)) (r c : Nat) : Nat :=
  (((List.range (shape0 s)).map (fun nr =>
    ((List.range (shape1 s)).filter (fun nc =>
      decide (¬(nr = r ∧ nc = c) ∧ nr ≤ r + 1 ∧ r ≤ nr + 1 ∧ nc ≤ c + 1 ∧ c ≤ nc + 1 ∧
        cell s nr nc = true))).length)).sum)

/-- The spec's transition rule at one cell, as a function of the neighbor
count `n` and the current value `cur`. -/
def lifeRule (n : Nat) (cur : Bool) : Bool :=
  if n < 2 then false else if n = 2 then cur else if n = 3 then true else false

/-- The columns of the into-plate dispense operations of a trace, in order. -/
def dispenseColumnsOf (tr : List Op) : List Nat :=
  tr.filterMap (fun op => match op with
    | Op.dispensePlate c _ _ _ => some c
    | _ => none)

/-- The columns of the from-plate aspirate operations of a trace, in order. -/
def aspirateColumnsOf (tr : List Op) : List Nat :=
  tr.filterMap (fun op => match op with
    | Op.aspiratePlate c _ _ _ => some c
    | _ => none)

/-- The channel list of a batched operation (`none` for tip handling). -/
def batchChannels : Op → Option (List Nat)
  | Op.pickUpTips => none
  | Op.aspirateTrough ch _ => some ch
  | Op.dispensePlate _ _ _ ch => some ch
  | Op.aspiratePlate _ _ _ ch => some ch
  | Op.dispenseTrough ch _ => some ch
  | Op.returnTips => none

/-- Total volume a trace aspirates from the trough. -/
def aspTroughTotal (tr : List Op) : Nat :=
  (tr.map (fun op => match op with | Op.aspirateTrough _ v => v.sum | _ => 0)).sum

/-- Total volume a trace dispenses into plate wells. -/
def dispPlateTotal (tr : List Op) : Nat :=
  (tr.map (fun op => match op with | Op.dispensePlate _ _ v _ => v.sum | _ => 0)).sum

/-- Total volume a trace aspirates from plate wells. -/
def aspPlateTotal (tr : List Op) : Nat :=
  (tr.map (fun op => match op with | Op.aspiratePlate _ _ v _ => v.sum | _ => 0)).sum

/-- Total volume a trace dispenses back into the trough. -/
def dispTroughTotal (tr : List Op) : Nat :=
  (tr.map (fun op => match op with | Op.dispenseTrough _ v => v.sum | _ => 0)).sum

/-- Whether a control-loop event is a plate read. -/
def isReadEv : Ev → Bool
  | Ev.read _ => true
  | _ => false

/-! Characterization of the need/excess accumulation. -/

theorem dcell_out_of_range (d : List (List Int)) {r : Nat} (c : Nat)
    (h : shape0 d ≤ r) : dcell d r c = 0 := by
  have hnone : d[r]? = none := by
    rw [List.getElem?_eq_none_iff]
    exact h
  simp [dcell, List.getD_eq_getElem?_getD, hnone]

theorem foldl_rowStep_fst (d : List (List Int)) (c : Nat)
    (ne : (Nat → Nat) × (Nat → Nat)) (n : Nat) :
    ∀ r, ((List.range n).foldl (rowStep d c) ne).1 r
      = ne.1 r + (if r < n ∧ dcell d r c = 1 then ALIVE_VOLUME else 0) := by
  induction n with
  | zero => simp
  | succ n ih =>
    intro r
    rw [List.range_succ, List.foldl_append, List.foldl_cons, List.foldl_nil]
    simp only [rowStep]
    by_cases h1 : dcell d n c = 1
    · rw [if_pos h1]
      dsimp only
      simp only [bump]
      by_cases hr : r = n
      · subst hr
        rw [if_pos rfl, ih r, if_neg (show ¬(r < r ∧ dcell d r c = 1) by omega),
          if_pos ⟨Nat.lt_succ_self r, h1⟩]
        omega
      · rw [if_neg hr, ih r,
          if_congr (show (r < n ∧ dcell d r c = 1) ↔ (r < n + 1 ∧ dcell d r c = 1)
            by omega) rfl rfl]
    · rw [if_neg h1]
      by_cases h2 : dcell d n c = -1
      · rw [if_pos h2]
        dsimp only
        rw [ih r]
        by_cases hr : r = n
        · subst hr
          rw [if_neg (show ¬(r < r ∧ dcell d r c = 1) by omega),
            if_neg (show ¬(r < r + 1 ∧ dcell d r c = 1) by omega)]
        · rw [if_congr (show (r < n ∧ dcell d r c = 1) ↔ (r < n + 1 ∧ dcell d r c = 1)
            by omega) rfl rfl]
      · rw [if_neg h2, ih r]
        by_cases hr : r = n
        · subst hr
          rw [if_neg (show ¬(r < r ∧ dcell d r c = 1) by omega),
            if_neg (show ¬(r < r + 1 ∧ dcell d r c = 1) by omega)]
        · rw [if_congr (show (r < n ∧ dcell d r c = 1) ↔ (r < n + 1 ∧ dcell d r c = 1)
            by omega) rfl rfl]

theorem foldl_rowStep_snd (d : List (List Int)) (c : Nat)
    (ne : (Nat → Nat) × (Nat → Nat)) (n : Nat) :
    ∀ r, ((List.range n).foldl (rowStep d c) ne).2 r
      = ne.2 r + (if r < n ∧ dcell d r c = -1 then ALIVE_VOLUME else 0) := by
  induction n with
  | zero => simp
  | succ n ih =>
    intro r
    rw [List.range_succ, List.foldl_append, List.foldl_cons, List.foldl_nil]
    simp only [rowStep]
    by_cases h1 : dcell d n c = 1
    · rw [if_pos h1]
      dsimp only
      rw [ih r]
      by_cases hr : r = n
      · subst hr
        rw [if_neg (show ¬(r < r ∧ dcell d r c = -1) by omega),
          if_neg (show ¬(r < r + 1 ∧ dcell d r c = -1) by omega)]
      · rw [if_congr (show (r < n ∧ dcell d r c = -1) ↔ (r < n + 1 ∧ dcell d r c = -1)
          by omega) rfl rfl]
    · rw [if_neg h1]
      by_cases h2 : dcell d n c = -1
      · rw [if_pos h2]
        dsimp only
        simp only [bump]
        by_cases hr : r = n
        · subst hr
          rw [if_pos rfl, ih r, if_neg (show ¬(r < r ∧ dcell d r c = -1) by omega),
            if_pos ⟨Nat.lt_succ_self r, h2⟩]
          omega
        · rw [if_neg hr, ih r,
            if_congr (show (r < n ∧ dcell d r c = -1) ↔ (r < n + 1 ∧ dcell d r c = -1)
              by omega) rfl rfl]
      · rw [if_neg h2, ih r]
        by_cases hr : r = n
        · subst hr
          rw [if_neg (show ¬(r < r ∧ dcell d r c = -1) by omega),
            if_neg (show ¬(r < r + 1 ∧ dcell d r c = -1) by omega)]
        · rw [if_congr (show (r < n ∧ dcell d r c = -1) ↔ (r < n + 1 ∧ dcell d r c = -1)
            by omega) rfl rfl]

theorem foldl_colStep_fst (d : List (List Int)) (ne : (Nat → Nat) × (Nat → Nat))
    (m : Nat) :
    ∀ r, ((List.range m).foldl (colStep d) ne).1 r
      = ne.1 r + ((List.range m).map (fun c =>
          if r < shape0 d ∧ dcell d r c = 1 then ALIVE_VOLUME else 0)).sum := by
  induction m with
  | zero => simp
  | succ m ih =>
    intro r
    rw [List.range_succ, List.foldl_append, List.foldl_cons, List.foldl_nil]
    simp only [colStep]
    rw [foldl_rowStep_fst, ih r, List.map_append, List.sum_append]
    simp only [List.map_cons, List.map_nil, List.sum_cons, List.sum_nil]
    omega

theorem foldl_colStep_snd (d : List (List Int)) (ne : (Nat → Nat) × (Nat → Nat))
    (m : Nat) :
    ∀ r, ((List.range m).foldl (colStep d) ne).2 r
      = ne.2 r + ((List.range m).map (fun c =>
          if r < shape0 d ∧ dcell d r c = -1 then ALIVE_VOLUME else 0)).sum := by
  induction m with
  | zero => simp
  | succ m ih =>
    intro r
    rw [List.range_succ, List.foldl_append, List.foldl_cons, List.foldl_nil]
    simp only [colStep]
    rw [foldl_rowStep_snd, ih r, List.map_append, List.sum_append]
    simp only [List.map_cons, List.map_nil, List.sum_cons, List.sum_nil]
    omega

theorem sum_map_ite (L : List Nat) (q : Nat → Prop) [DecidablePred q] (v : Nat) :
    (L.map (fun c => if q c then v else 0)).sum
      = v * (L.filter (fun c => decide (q c))).length := by
  induction L with
  | nil => simp
  | cons a t ih =>
    by_cases h : q a
    · have hd : decide (q a) = true := decide_eq_true h
      rw [List.map_cons, List.sum_cons, if_pos h, List.filter_cons, hd, if_pos rfl,
        List.length_cons, ih]
      ring
    · have hd : decide (q a) = false := decide_eq_false h
      simp [h, ih, hd]

theorem need_eq_count (d : List (List Int)) (r : Nat) :
    (needExcess d).1 r = ALIVE_VOLUME * plusCount d r := by
  rw [needExcess, foldl_colStep_fst]
  rw [sum_map_ite _ (fun c => r < shape0 d ∧ dcell d r c = 1)]
  rw [plusCount]
  by_cases hr : r < shape0 d
  · rw [List.filter_congr (fun c _ => by simp [hr] :
      ∀ c ∈ List.range (shape1 d), decide (r < shape0 d ∧ dcell d r c = 1)
        = decide (dcell d r c = 1))]
    simp
  · have h0 : ∀ c, dcell d r c = 0 := fun c => dcell_out_of_range d c (by omega)
    rw [show List.filter (fun c => decide (r < shape0 d ∧ dcell d r c = 1))
          (List.range (shape1 d)) = [] from
        List.filter_eq_nil_iff.mpr (fun c _ => by simp [hr]),
      show List.filter (fun c => decide (dcell d r c = 1)) (List.range (shape1 d)) = [] from
        List.filter_eq_nil_iff.mpr (fun c _ => by simp [h0 c])]
    simp

theorem excess_eq_count (d : List (List Int)) (r : Nat) :
    (needExcess d).2 r = ALIVE_VOLUME * minusCount d r := by
  rw [needExcess, foldl_colStep_snd]
  rw [sum_map_ite _ (fun c => r < shape0 d ∧ dcell d r c = -1)]
  rw [minusCount]
  by_cases hr : r < shape0 d
  · rw [List.filter_congr (fun c _ => by simp [hr] :
      ∀ c ∈ List.range (shape1 d), decide (r < shape0 d ∧ dcell d r c = -1)
        = decide (dcell d r c = -1))]
    simp
  · have h0 : ∀ c, dcell d r c = 0 := fun c => dcell_out_of_range d c (by omega)
    rw [show List.filter (fun c => decide (r < shape0 d ∧ dcell d r c = -1))
          (List.range (shape1 d)) = [] from
        List.filter_eq_nil_iff.mpr (fun c _ => by simp [hr]),
      show List.filter (fun c => decide (dcell d r c = -1)) (List.range (shape1 d)) = [] from
        List.filter_eq_nil_iff.mpr (fun c _ => by simp [h0 c])]
    simp

/-! Structure of the `update_plate` trace. -/

theorem troughAspirateOps_eq (d : List (List Int)) :
    troughAspirateOps d =
      if ((List.range 8).filter (fun ch => decide (0 < (needExcess d).1 ch))) = [] then []
      else [Op.aspirateTrough
        ((List.range 8).filter (fun ch => decide (0 < (needExcess d).1 ch)))
        (((List.range 8).filter (fun ch => decide (0 < (needExcess d).1 ch))).map
          (needExcess d).1)] := by
  simp only [troughAspirateOps]
  by_cases h : ((List.range 8).filter (fun ch => decide (0 < (needExcess d).1 ch))) = []
  · simp [h]
  · rw [if_pos (List.length_pos.mpr h), if_neg h]

theorem troughDispenseOps_eq (d : List (List Int)) :
    troughDispenseOps d =
      if ((List.range 8).filter (fun ch => decide (0 < (needExcess d).2 ch))) = [] then []
      else [Op.dispenseTrough
        ((List.range 8).filter (fun ch => decide (0 < (needExcess d).2 ch)))
        (((List.range 8).filter (fun ch => decide (0 < (needExcess d).2 ch))).map
          (needExcess d).2)] := by
  simp only [troughDispenseOps]
  by_cases h : ((List.range 8).filter (fun ch => decide (0 < (needExcess d).2 ch))) = []
  · simp [h]
  · rw [if_pos (List.length_pos.mpr h), if_neg h]

theorem dispenseColOps_eq (d : List (List Int)) (c : Nat) :
    dispenseColOps d c = if plateBatch d 1 c = [] then []
      else [Op.dispensePlate c ((plateBatch d 1 c).map (fun row => c * 8 + row))
        ((plateBatch d 1 c).map (fun _ => ALIVE_VOLUME)) (plateBatch d 1 c)] := by
  simp only [dispenseColOps]
  by_cases h : plateBatch d 1 c = []
  · simp [h]
  · rw [if_pos, if_neg h]
    rw [List.length_map, List.length_pos]
    exact h

theorem aspirateColOps_eq (d : List (List Int)) (c : Nat) :
    aspirateColOps d c = if plateBatch d (-1) c = [] then []
      else [Op.aspiratePlate c ((plateBatch d (-1) c).map (fun row => c * 8 + row))
        ((plateBatch d (-1) c).map (fun _ => ALIVE_VOLUME)) (plateBatch d (-1) c)] := by
  simp only [aspirateColOps]
  by_cases h : plateBatch d (-1) c = []
  · simp [h]
  · rw [if_pos, if_neg h]
    rw [List.length_map, List.length_pos]
    exact h

theorem mem_dispenseOps {d : List (List Int)} {op : Op} :
    op ∈ dispenseOps d ↔ ∃ c, c < shape1 d ∧ plateBatch d 1 c ≠ [] ∧
      op = Op.dispensePlate c ((plateBatch d 1 c).map (fun row => c * 8 + row))
        ((plateBatch d 1 c).map (fun _ => ALIVE_VOLUME)) (plateBatch d 1 c) := by
  simp only [dispenseOps, List.mem_flatten, List.mem_map, List.mem_range]
  constructor
  · rintro ⟨l, ⟨c, hc, rfl⟩, hop⟩
    rw [dispenseColOps_eq] at hop
    by_cases h : plateBatch d 1 c = []
    · rw [if_pos h] at hop
      exact absurd hop (List.not_mem_nil op)
    · rw [if_neg h, List.mem_singleton] at hop
      exact ⟨c, hc, h, hop⟩
  · rintro ⟨c, hc, h, rfl⟩
    refine ⟨dispenseColOps d c, ⟨c, hc, rfl⟩, ?_⟩
    rw [dispenseColOps_eq, if_neg h, List.mem_singleton]

theorem mem_aspirateOps {d : List (List Int)} {op : Op} :
    op ∈ aspirateOps d ↔ ∃ c, c < shape1 d ∧ plateBatch d (-1) c ≠ [] ∧
      op = Op.aspiratePlate c ((plateBatch d (-1) c).map (fun row => c * 8 + row))
        ((plateBatch d (-1) c).map (fun _ => ALIVE_VOLUME)) (plateBatch d (-1) c) := by
  simp only [aspirateOps, List.mem_flatten, List.mem_map, List.mem_reverse, List.mem_range]
  constructor
  · rintro ⟨l, ⟨c, hc, rfl⟩, hop⟩
    rw [aspirateColOps_eq] at hop
    by_cases h : plateBatch d (-1) c = []
    · rw [if_pos h] at hop
      exact absurd hop (List.not_mem_nil op)
    · rw [if_neg h, List.mem_singleton] at hop
      exact ⟨c, hc, h, hop⟩
  · rintro ⟨c, hc, h, rfl⟩
    refine ⟨aspirateColOps d c, ⟨c, hc, rfl⟩, ?_⟩
    rw [aspirateColOps_eq, if_neg h, List.mem_singleton]

theorem mem_update_plate_ops {d : List (List Int)} {op : Op} :
    op ∈ update_plate_ops d ↔
      op = Op.pickUpTips ∨ op ∈ troughAspirateOps d ∨ op ∈ dispenseOps d ∨
        op ∈ aspirateOps d ∨ op ∈ troughDispenseOps d ∨ op = Op.returnTips := by
  simp [update_plate_ops, or_assoc]

theorem dispensePlate_mem {d : List (List Int)} {col : Nat} {w v ch : List Nat}
    (h : Op.dispensePlate col w v ch ∈ update_plate_ops d) :
    col < shape1 d ∧ plateBatch d 1 col ≠ [] ∧
      w = (plateBatch d 1 col).map (fun row => col * 8 + row) ∧
      v = (plateBatch d 1 col).map (fun _ => ALIVE_VOLUME) ∧
      ch = plateBatch d 1 col := by
  rw [mem_update_plate_ops] at h
  rcases h with h | h | h | h | h | h
  · exact absurd h (by simp)
  · rw [troughAspirateOps_eq] at h
    by_cases he : ((List.range 8).filter (fun c => decide (0 < (needExcess d).1 c))) = []
    · rw [if_pos he] at h
      exact absurd h (List.not_mem_nil _)
    · rw [if_neg he, List.mem_singleton] at h
      exact absurd h (by simp)
  · rw [mem_dispenseOps] at h
    obtain ⟨c, hc, hb, heq⟩ := h
    rw [Op.dispensePlate.injEq] at heq
    obtain ⟨rfl, rfl, rfl, rfl⟩ := heq
    exact ⟨hc, hb, rfl, rfl, rfl⟩
  · rw [mem_aspirateOps] at h
    obtain ⟨c, hc, hb, heq⟩ := h
    exact absurd heq (by simp)
  · rw [troughDispenseOps_eq] at h
    by_cases he : ((List.range 8).filter (fun c => decide (0 < (needExcess d).2 c))) = []
    · rw [if_pos he] at h
      exact absurd h (List.not_mem_nil _)
    · rw [if_neg he, List.mem_singleton] at h
      exact absurd h (by simp)
  · exact absurd h (by simp)

theorem aspiratePlate_mem {d : List (List Int)} {col : Nat} {w v ch : List Nat}
    (h : Op.aspiratePlate col w v ch ∈ update_plate_ops d) :
    col < shape1 d ∧ plateBatch d (-1) col ≠ [] ∧
      w = (plateBatch d (-1) col).map (fun row => col * 8 + row) ∧
      v = (plateBatch d (-1) col).map (fun _ => ALIVE_VOLUME) ∧
      ch = plateBatch d (-1) col := by
  rw [mem_update_plate_ops] at h
  rcases h with h | h | h | h | h | h
  · exact absurd h (by simp)
  · rw [troughAspirateOps_eq] at h
    by_cases he : ((List.range 8).filter (fun c => decide (0 < (needExcess d).1 c))) = []
    · rw [if_pos he] at h
      exact absurd h (List.not_mem_nil _)
    · rw [if_neg he, List.mem_singleton] at h
      exact absurd h (by simp)
  · rw [mem_dispenseOps] at h
    obtain ⟨c, hc, hb, heq⟩ := h
    exact absurd heq (by simp)
  · rw [mem_aspirateOps] at h
    obtain ⟨c, hc, hb, heq⟩ := h
    rw [Op.aspiratePlate.injEq] at heq
    obtain ⟨rfl, rfl, rfl, rfl⟩ := heq
    exact ⟨hc, hb, rfl, rfl, rfl⟩
  · rw [troughDispenseOps_eq] at h
    by_cases he : ((List.range 8).filter (fun c => decide (0 < (needExcess d).2 c))) = []
    · rw [if_pos he] at h
      exact absurd h (List.not_mem_nil _)
    · rw [if_neg he, List.mem_singleton] at h
      exact absurd h (by simp)
  · exact absurd h (by simp)

theorem mem_plateBatch {d : List (List Int)} {v : Int} {c row : Nat} :
    row ∈ plateBatch d v c ↔ row < shape0 d ∧ dcell d row c = v := by
  simp [plateBatch]

/-- Claim C1: for every transition grid (with the physical 8 rows), the
operation sequence issued by `update_plate` never contains a dispense into a
plate well `(row, col)` whose `diff[row, col]` is not `+1`, and never contains
an aspirate from a plate well whose `diff[row, col]` is not `-1` (well id
`wid` addresses row `wid % 8`, column `wid / 8`). -/
theorem C1_transfer_safety (d : List (List Int)) (h8 : shape0 d = 8) :
    ∀ op ∈ update_plate_ops d,
      (∀ col w v ch, op = Op.dispensePlate col w v ch →
        ∀ wid ∈ w, dcell d (wid % 8) (wid / 8) = 1) ∧
      (∀ col w v ch, op = Op.aspiratePlate col w v ch →
        ∀ wid ∈ w, dcell d (wid % 8) (wid / 8) = -1) := by
  intro op hop
  constructor
  · rintro col w v ch rfl wid hwid
    obtain ⟨hc, hb, hw, hv, hch⟩ := dispensePlate_mem hop
    subst hw
    rw [List.mem_map] at hwid
    obtain ⟨row, hrow, rfl⟩ := hwid
    rw [mem_plateBatch] at hrow
    obtain ⟨hlt, hval⟩ := hrow
    rw [h8] at hlt
    have h1 : (col * 8 + row) % 8 = row := by omega
    have h2 : (col * 8 + row) / 8 = col := by omega
    rw [h1, h2]
    exact hval
  · rintro col w v ch rfl wid hwid
    obtain ⟨hc, hb, hw, hv, hch⟩ := aspiratePlate_mem hop
    subst hw
    rw [List.mem_map] at hwid
    obtain ⟨row, hrow, rfl⟩ := hwid
    rw [mem_plateBatch] at hrow
    obtain ⟨hlt, hval⟩ := hrow
    rw [h8] at hlt
    have h1 : (col * 8 + row) % 8 = row := by omega
    have h2 : (col * 8 + row) / 8 = col := by omega
    rw [h1, h2]
    exact hval

/-- Witness for C1 at the concrete 8×1 grid `[[1], [-1], 0…]`: its trace
contains the dispense op for well 0, and the claim instantiates there. -/
theorem C1_transfer_safety_witness :
    dcell [[1], [-1], [0], [0], [0], [0], [0], [0]] (0 % 8) (0 / 8) = 1 :=
  (C1_transfer_safety [[1], [-1], [0], [0], [0], [0], [0], [0]] rfl
      (Op.dispensePlate 0 [0] [100] [0]) (by decide)).1
    0 [0] [100] [0] rfl 0 (by decide)

theorem aspirateTrough_mem {d : List (List Int)} {ch v : List Nat}
    (h : Op.aspirateTrough ch v ∈ update_plate_ops d) :
    ch = (List.range 8).filter (fun r => decide (0 < (needExcess d).1 r)) ∧
      v = ch.map (needExcess d).1 ∧ ch ≠ [] := by
  rw [mem_update_plate_ops] at h
  rcases h with h | h | h | h | h | h
  · exact absurd h (by simp)
  · rw [troughAspirateOps_eq] at h
    by_cases he : ((List.range 8).filter (fun c => decide (0 < (needExcess d).1 c))) = []
    · rw [if_pos he] at h
      exact absurd h (List.not_mem_nil _)
    · rw [if_neg he, List.mem_singleton, Op.aspirateTrough.injEq] at h
      obtain ⟨rfl, rfl⟩ := h
      exact ⟨rfl, rfl, he⟩
  · rw [mem_dispenseOps] at h
    obtain ⟨c, _, _, heq⟩ := h
    exact absurd heq (by simp)
  · rw [mem_aspirateOps] at h
    obtain ⟨c, _, _, heq⟩ := h
    exact absurd heq (by simp)
  · rw [troughDispenseOps_eq] at h
    by_cases he : ((List.range 8).filter (fun c => decide (0 < (needExcess d).2 c))) = []
    · rw [if_pos he] at h
      exact absurd h (List.not_mem_nil _)
    · rw [if_neg he, List.mem_singleton] at h
      exact absurd h (by simp)
  · exact absurd h (by simp)

theorem dispenseTrough_mem {d : List (List Int)} {ch v : List Nat}
    (h : Op.dispenseTrough ch v ∈ update_plate_ops d) :
    ch = (List.range 8).filter (fun r => decide (0 < (needExcess d).2 r)) ∧
      v = ch.map (needExcess d).2 ∧ ch ≠ [] := by
  rw [mem_update_plate_ops] at h
  rcases h with h | h | h | h | h | h
  · exact absurd h (by simp)
  · rw [troughAspirateOps_eq] at h
    by_cases he : ((List.range 8).filter (fun c => decide (0 < (needExcess d).1 c))) = []
    · rw [if_pos he] at h
      exact absurd h (List.not_mem_nil _)
    · rw [if_neg he, List.mem_singleton] at h
      exact absurd h (by simp)
  · rw [mem_dispenseOps] at h
    obtain ⟨c, _, _, heq⟩ := h
    exact absurd heq (by simp)
  · rw [mem_aspirateOps] at h
    obtain ⟨c, _, _, heq⟩ := h
    exact absurd heq (by simp)
  · rw [troughDispenseOps_eq] at h
    by_cases he : ((List.range 8).filter (fun c => decide (0 < (needExcess d).2 c))) = []
    · rw [if_pos he] at h
      exact absurd h (List.not_mem_nil _)
    · rw [if_neg he, List.mem_singleton, Op.dispenseTrough.injEq] at h
      obtain ⟨rfl, rfl⟩ := h
      exact ⟨rfl, rfl, he⟩
  · exact absurd h (by simp)

/-- Claim C4: before any transfer executes, `need[r] = V × #(diff[r,:] = +1)`
and `excess[r] = V × #(diff[r,:] = −1)` for every row; and the pre-aspirate
batch from the reservoir contains exactly the channels with `need > 0`, each
with per-channel volume `need[r]` (it exists whenever some channel needs
volume). -/
theorem C4_need_excess_conservation (d : List (List Int)) (h8 : shape0 d = 8) :
    (∀ r, r < 8 →
      (needExcess d).1 r = ALIVE_VOLUME * plusCount d r ∧
      (needExcess d).2 r = ALIVE_VOLUME * minusCount d r) ∧
    (∀ ch v, Op.aspirateTrough ch v ∈ update_plate_ops d →
      (∀ r, r ∈ ch ↔ r < 8 ∧ 0 < (needExcess d).1 r) ∧
      v = ch.map (needExcess d).1) ∧
    ((∃ r, r < 8 ∧ 0 < (needExcess d).1 r) →
      ∃ ch v, Op.aspirateTrough ch v ∈ update_plate_ops d) := by
  refine ⟨fun r _ => ⟨need_eq_count d r, excess_eq_count d r⟩, ?_, ?_⟩
  · intro ch v h
    obtain ⟨hch, hv, _⟩ := aspirateTrough_mem h
    subst hch
    refine ⟨fun r => ?_, hv⟩
    simp [List.mem_filter]
  · rintro ⟨r, hr, hpos⟩
    have hne : ((List.range 8).filter (fun c => decide (0 < (needExcess d).1 c))) ≠ [] := by
      intro hnil
      have : r ∈ (List.range 8).filter (fun c => decide (0 < (needExcess d).1 c)) := by
        simp [List.mem_filter, hr, hpos]
      rw [hnil] at this
      exact absurd this (List.not_mem_nil r)
    refine ⟨(List.range 8).filter (fun c => decide (0 < (needExcess d).1 c)),
      ((List.range 8).filter (fun c => decide (0 < (needExcess d).1 c))).map
        (needExcess d).1, ?_⟩
    rw [mem_update_plate_ops]
    refine Or.inr (Or.inl ?_)
    rw [troughAspirateOps_eq, if_neg hne]
    exact List.mem_singleton.mpr rfl

/-- Witness for C4 at the 8×1 grid `[[1], [-1], 0…]`: the trace's reservoir
pre-aspirate is the batch `aspirateTrough [0] [100]`, and its volume list is
`need` mapped over its channel list. -/
theorem C4_need_excess_conservation_witness :
    ([100] : List Nat)
      = List.map (needExcess [[1], [-1], [0], [0], [0], [0], [0], [0]]).1 [0] :=
  ((C4_need_excess_conservation [[1], [-1], [0], [0], [0], [0], [0], [0]] rfl).2.1
    [0] [100] (by decide)).2

/-! Volume totals of the trace. -/

theorem map_sum_zero {g : Op → Nat} {l : List Op} (h : ∀ op ∈ l, g op = 0) :
    (l.map g).sum = 0 := by
  apply List.sum_eq_zero
  intro x hx
  rw [List.mem_map] at hx
  obtain ⟨op, hop, rfl⟩ := hx
  exact h op hop

theorem sum_map_constant (v : Nat) (l : List Nat) :
    (l.map (fun _ => v)).sum = v * l.length := by
  induction l with
  | nil => simp
  | cons a t ih =>
    simp only [List.map_cons, List.sum_cons, ih, List.length_cons]
    ring

theorem sum_map_add (L : List Nat) (g h : Nat → Nat) :
    (L.map (fun c => g c + h c)).sum = (L.map g).sum + (L.map h).sum := by
  induction L with
  | nil => simp
  | cons a t ih =>
    simp only [List.map_cons, List.sum_cons, ih]
    omega

theorem sum_sum_swap (m n : Nat) (f : Nat → Nat → Nat) :
    ((List.range m).map (fun r => ((List.range n).map (f r)).sum)).sum
      = ((List.range n).map (fun c => ((List.range m).map (fun r => f r c)).sum)).sum := by
  induction m with
  | zero =>
    simp
  | succ m ih =>
    rw [List.range_succ, List.map_append, List.sum_append]
    simp only [List.map_cons, List.map_nil, List.sum_cons, List.sum_nil]
    rw [ih]
    have : ∀ c ∈ List.range n,
        ((List.range m ++ [m]).map (fun r => f r c)).sum
          = ((List.range m).map (fun r => f r c)).sum + f m c := by
      intro c _
      rw [List.map_append, List.sum_append]
      simp
    rw [List.map_congr_left this, sum_map_add]
    omega

theorem filter_pos_map_sum (f : Nat → Nat) (L : List Nat) :
    ((L.filter (fun x => decide (0 < f x))).map f).sum = (L.map f).sum := by
  induction L with
  | nil => rfl
  | cons a t ih =>
    by_cases h : 0 < f a
    · simp [List.filter_cons, h, ih]
    · have h0 : f a = 0 := by omega
      simp [List.filter_cons, h, ih, h0]

theorem sum_map_flatten_cols (g : Op → Nat) (L : List Nat) (F : Nat → List Op) :
    (((L.map F).flatten).map g).sum = (L.map (fun c => ((F c).map g).sum)).sum := by
  induction L with
  | nil => rfl
  | cons a t ih =>
    simp only [List.map_cons, List.flatten_cons, List.map_append, List.sum_append,
      List.sum_cons, ih]

theorem aspTroughTotal_update_plate (d : List (List Int)) :
    aspTroughTotal (update_plate_ops d) = ((List.range 8).map (needExcess d).1).sum := by
  rw [update_plate_ops, aspTroughTotal]
  simp only [List.map_append, List.sum_append]
  have hd : ((dispenseOps d).map (fun op => match op with
      | Op.aspirateTrough _ v => v.sum | _ => 0)).sum = 0 := by
    apply map_sum_zero
    intro op hop
    rw [mem_dispenseOps] at hop
    obtain ⟨c, _, _, rfl⟩ := hop
    rfl
  have ha : ((aspirateOps d).map (fun op => match op with
      | Op.aspirateTrough _ v => v.sum | _ => 0)).sum = 0 := by
    apply map_sum_zero
    intro op hop
    rw [mem_aspirateOps] at hop
    obtain ⟨c, _, _, rfl⟩ := hop
    rfl
  have ht : ((troughDispenseOps d).map (fun op => match op with
      | Op.aspirateTrough _ v => v.sum | _ => 0)).sum = 0 := by
    rw [troughDispenseOps_eq]
    by_cases he : ((List.range 8).filter (fun c => decide (0 < (needExcess d).2 c))) = []
    · rw [if_pos he]
      rfl
    · rw [if_neg he]
      rfl
  rw [hd, ha, ht, troughAspirateOps_eq]
  by_cases he : ((List.range 8).filter (fun c => decide (0 < (needExcess d).1 c))) = []
  · rw [if_pos he]
    have hz : ((List.range 8).map (needExcess d).1).sum = 0 := by
      apply List.sum_eq_zero
      intro x hx
      rw [List.mem_map] at hx
      obtain ⟨r, hr, rfl⟩ := hx
      have := List.filter_eq_nil_iff.mp he r hr
      simp only [decide_eq_true_eq] at this
      omega
    rw [hz]
    rfl
  · rw [if_neg he]
    simp only [List.map_cons, List.map_nil, List.sum_cons, List.sum_nil]
    rw [filter_pos_map_sum]
    omega

theorem dispTroughTotal_update_plate (d : List (List Int)) :
    dispTroughTotal (update_plate_ops d) = ((List.range 8).map (needExcess d).2).sum := by
  rw [update_plate_ops, dispTroughTotal]
  simp only [List.map_append, List.sum_append]
  have hd : ((dispenseOps d).map (fun op => match op with
      | Op.dispenseTrough _ v => v.sum | _ => 0)).sum = 0 := by
    apply map_sum_zero
    intro op hop
    rw [mem_dispenseOps] at hop
    obtain ⟨c, _, _, rfl⟩ := hop
    rfl
  have ha : ((aspirateOps d).map (fun op => match op with
      | Op.dispenseTrough _ v => v.sum | _ => 0)).sum = 0 := by
    apply map_sum_zero
    intro op hop
    rw [mem_aspirateOps] at hop
    obtain ⟨c, _, _, rfl⟩ := hop
    rfl
  have ht : ((troughAspirateOps d).map (fun op => match op with
      | Op.dispenseTrough _ v => v.sum | _ => 0)).sum = 0 := by
    rw [troughAspirateOps_eq]
    by_cases he : ((List.range 8).filter (fun c => decide (0 < (needExcess d).1 c))) = []
    · rw [if_pos he]
      rfl
    · rw [if_neg he]
      rfl
  rw [hd, ha, ht, troughDispenseOps_eq]
  by_cases he : ((List.range 8).filter (fun c => decide (0 < (needExcess d).2 c))) = []
  · rw [if_pos he]
    have hz : ((List.range 8).map (needExcess d).2).sum = 0 := by
      apply List.sum_eq_zero
      intro x hx
      rw [List.mem_map] at hx
      obtain ⟨r, hr, rfl⟩ := hx
      have := List.filter_eq_nil_iff.mp he r hr
      simp only [decide_eq_true_eq] at this
      omega
    rw [hz]
    rfl
  · rw [if_neg he]
    simp only [List.map_cons, List.map_nil, List.sum_cons, List.sum_nil]
    rw [filter_pos_map_sum]
    omega

theorem dispPlateTotal_update_plate (d : List (List Int)) :
    dispPlateTotal (update_plate_ops d)
      = ((List.range (shape1 d)).map
          (fun c => ALIVE_VOLUME * (plateBatch d 1 c).length)).sum := by
  rw [update_plate_ops, dispPlateTotal]
  simp only [List.map_append, List.sum_append]
  have hta : ((troughAspirateOps d).map (fun op => match op with
      | Op.dispensePlate _ _ v _ => v.sum | _ => 0)).sum = 0 := by
    rw [troughAspirateOps_eq]
    by_cases he : ((List.range 8).filter (fun c => decide (0 < (needExcess d).1 c))) = []
    · rw [if_pos he]
      rfl
    · rw [if_neg he]
      rfl
  have htd : ((troughDispenseOps d).map (fun op => match op with
      | Op.dispensePlate _ _ v _ => v.sum | _ => 0)).sum = 0 := by
    rw [troughDispenseOps_eq]
    by_cases he : ((List.range 8).filter (fun c => decide (0 < (needExcess d).2 c))) = []
    · rw [if_pos he]
      rfl
    · rw [if_neg he]
      rfl
  have ha : ((aspirateOps d).map (fun op => match op with
      | Op.dispensePlate _ _ v _ => v.sum | _ => 0)).sum = 0 := by
    apply map_sum_zero
    intro op hop
    rw [mem_aspirateOps] at hop
    obtain ⟨c, _, _, rfl⟩ := hop
    rfl
  rw [hta, htd, ha, dispenseOps, sum_map_flatten_cols]
  have hcol : ∀ c ∈ List.range (shape1 d),
      ((dispenseColOps d c).map (fun op => match op with
        | Op.dispensePlate _ _ v _ => v.sum | _ => 0)).sum
        = ALIVE_VOLUME * (plateBatch d 1 c).length := by
    intro c _
    rw [dispenseColOps_eq]
    by_cases h : plateBatch d 1 c = []
    · rw [if_pos h, h]
      rfl
    · rw [if_neg h]
      simp only [List.map_cons, List.map_nil, List.sum_cons, List.sum_nil]
      rw [sum_map_constant]
      omega
  rw [List.map_congr_left hcol]
  have h1 : (([Op.pickUpTips] : List Op).map (fun op => match op with
      | Op.dispensePlate _ _ v _ => v.sum | _ => 0)).sum = 0 := rfl
  have h2 : (([Op.returnTips] : List Op).map (fun op => match op with
      | Op.dispensePlate _ _ v _ => v.sum | _ => 0)).sum = 0 := rfl
  rw [h1, h2]
  omega

theorem aspPlateTotal_update_plate (d : List (List Int)) :
    aspPlateTotal (update_plate_ops d)
      = ((List.range (shape1 d)).map
          (fun c => ALIVE_VOLUME * (plateBatch d (-1) c).length)).sum := by
  rw [update_plate_ops, aspPlateTotal]
  simp only [List.map_append, List.sum_append]
  have hta : ((troughAspirateOps d).map (fun op => match op with
      | Op.aspiratePlate _ _ v _ => v.sum | _ => 0)).sum = 0 := by
    rw [troughAspirateOps_eq]
    by_cases he : ((List.range 8).filter (fun c => decide (0 < (needExcess d).1 c))) = []
    · rw [if_pos he]
      rfl
    · rw [if_neg he]
      rfl
  have htd : ((troughDispenseOps d).map (fun op => match op with
      | Op.aspiratePlate _ _ v _ => v.sum | _ => 0)).sum = 0 := by
    rw [troughDispenseOps_eq]
    by_cases he : ((List.range 8).filter (fun c => decide (0 < (needExcess d).2 c))) = []
    · rw [if_pos he]
      rfl
    · rw [if_neg he]
      rfl
  have hd : ((dispenseOps d).map (fun op => match op with
      | Op.aspiratePlate _ _ v _ => v.sum | _ => 0)).sum = 0 := by
    apply map_sum_zero
    intro op hop
    rw [mem_dispenseOps] at hop
    obtain ⟨c, _, _, rfl⟩ := hop
    rfl
  rw [hta, htd, hd, aspirateOps, sum_map_flatten_cols]
  have hcol : ∀ c ∈ (List.range (shape1 d)).reverse,
      ((aspirateColOps d c).map (fun op => match op with
        | Op.aspiratePlate _ _ v _ => v.sum | _ => 0)).sum
        = ALIVE_VOLUME * (plateBatch d (-1) c).length := by
    intro c _
    rw [aspirateColOps_eq]
    by_cases h : plateBatch d (-1) c = []
    · rw [if_pos h, h]
      rfl
    · rw [if_neg h]
      simp only [List.map_cons, List.map_nil, List.sum_cons, List.sum_nil]
      rw [sum_map_constant]
      omega
  rw [List.map_congr_left hcol, List.map_reverse, List.sum_reverse]
  have h1 : (([Op.pickUpTips] : List Op).map (fun op => match op with
      | Op.aspiratePlate _ _ v _ => v.sum | _ => 0)).sum = 0 := rfl
  have h2 : (([Op.returnTips] : List Op).map (fun op => match op with
      | Op.aspiratePlate _ _ v _ => v.sum | _ => 0)).sum = 0 := rfl
  rw [h1, h2]
  omega

/-- Claim C10: for every transition grid (with the physical 8 rows), the total
volume pre-aspirated from the reservoir equals the total volume dispensed into
plate wells that cycle, and the total volume aspirated from plate wells equals
the total volume in the attempted excess dispense back to the reservoir. -/
theorem C10_volume_conservation (d : List (List Int)) (h8 : shape0 d = 8) :
    aspTroughTotal (update_plate_ops d) = dispPlateTotal (update_plate_ops d) ∧
    aspPlateTotal (update_plate_ops d) = dispTroughTotal (update_plate_ops d) := by
  constructor
  · rw [aspTroughTotal_update_plate, dispPlateTotal_update_plate]
    have hneed : ∀ r ∈ List.range 8, (needExcess d).1 r
        = ((List.range (shape1 d)).map
            (fun c => if dcell d r c = 1 then ALIVE_VOLUME else 0)).sum := by
      intro r hr
      rw [List.mem_range] at hr
      rw [needExcess, foldl_colStep_fst]
      dsimp only
      rw [Nat.zero_add]
      refine congrArg List.sum (List.map_congr_left ?_)
      intro c _
      have hrs : r < shape0 d := by omega
      rw [if_congr (and_iff_right hrs) rfl rfl]
    rw [List.map_congr_left hneed,
      sum_sum_swap 8 (shape1 d) (fun r c => if dcell d r c = 1 then ALIVE_VOLUME else 0)]
    refine congrArg List.sum (List.map_congr_left ?_)
    intro c _
    rw [plateBatch, h8]
    exact sum_map_ite (List.range 8) (fun r => dcell d r c = 1) ALIVE_VOLUME
  · rw [aspPlateTotal_update_plate, dispTroughTotal_update_plate]
    have hexc : ∀ r ∈ List.range 8, (needExcess d).2 r
        = ((List.range (shape1 d)).map
            (fun c => if dcell d r c = -1 then ALIVE_VOLUME else 0)).sum := by
      intro r hr
      rw [List.mem_range] at hr
      rw [needExcess, foldl_colStep_snd]
      dsimp only
      rw [Nat.zero_add]
      refine congrArg List.sum (List.map_congr_left ?_)
      intro c _
      have hrs : r < shape0 d := by omega
      rw [if_congr (and_iff_right hrs) rfl rfl]
    rw [List.map_congr_left hexc,
      sum_sum_swap 8 (shape1 d) (fun r c => if dcell d r c = -1 then ALIVE_VOLUME else 0)]
    refine (congrArg List.sum (List.map_congr_left ?_)).symm
    intro c _
    rw [plateBatch, h8]
    exact sum_map_ite (List.range 8) (fun r => dcell d r c = -1) ALIVE_VOLUME

/-! Column ordering of the plate batches. -/

theorem filterMap_flatten_cols (f : Op → Option Nat) (L : List Nat) (F : Nat → List Op) :
    ((L.map F).flatten).filterMap f = (L.map (fun c => (F c).filterMap f)).flatten := by
  induction L with
  | nil => rfl
  | cons a t ih =>
    simp only [List.map_cons, List.flatten_cons, List.filterMap_append, ih]

theorem flatten_map_ite (L : List Nat) (p : Nat → Prop) [DecidablePred p] :
    (L.map (fun c => if p c then [c] else ([] : List Nat))).flatten
      = L.filter (fun c => decide (p c)) := by
  induction L with
  | nil => rfl
  | cons a t ih =>
    by_cases h : p a
    · simp [List.filter_cons, h, ih]
    · simp [List.filter_cons, h, ih]

theorem map_constant {α β : Type} (l : List α) (b : β) :
    l.map (fun _ => b) = List.replicate l.length b := by
  induction l with
  | nil => rfl
  | cons a t ih => simp [List.replicate_succ, ih]

theorem dispenseColumnsOf_update_plate (d : List (List Int)) :
    dispenseColumnsOf (update_plate_ops d)
      = (List.range (shape1 d)).filter (fun c => decide (plateBatch d 1 c ≠ [])) := by
  rw [update_plate_ops, dispenseColumnsOf]
  simp only [List.filterMap_append]
  have h1 : ([Op.pickUpTips] : List Op).filterMap (fun op => match op with
      | Op.dispensePlate c _ _ _ => some c | _ => none) = [] := rfl
  have h2 : ([Op.returnTips] : List Op).filterMap (fun op => match op with
      | Op.dispensePlate c _ _ _ => some c | _ => none) = [] := rfl
  have hta : (troughAspirateOps d).filterMap (fun op => match op with
      | Op.dispensePlate c _ _ _ => some c | _ => none) = [] := by
    rw [troughAspirateOps_eq]
    by_cases he : ((List.range 8).filter (fun c => decide (0 < (needExcess d).1 c))) = []
    · rw [if_pos he]
      rfl
    · rw [if_neg he]
      rfl
  have htd : (troughDispenseOps d).filterMap (fun op => match op with
      | Op.dispensePlate c _ _ _ => some c | _ => none) = [] := by
    rw [troughDispenseOps_eq]
    by_cases he : ((List.range 8).filter (fun c => decide (0 < (needExcess d).2 c))) = []
    · rw [if_pos he]
      rfl
    · rw [if_neg he]
      rfl
  have hasp : (aspirateOps d).filterMap (fun op => match op with
      | Op.dispensePlate c _ _ _ => some c | _ => none) = [] := by
    rw [aspirateOps, filterMap_flatten_cols]
    have : ∀ c ∈ (List.range (shape1 d)).reverse,
        (aspirateColOps d c).filterMap (fun op => match op with
          | Op.dispensePlate c _ _ _ => some c | _ => none) = [] := by
      intro c _
      rw [aspirateColOps_eq]
      by_cases h : plateBatch d (-1) c = []
      · rw [if_pos h]
        rfl
      · rw [if_neg h]
        rfl
    rw [List.map_congr_left this]
    simp [map_constant]
  rw [h1, h2, hta, htd, hasp, List.nil_append, List.nil_append, List.append_nil,
    List.append_nil, List.append_nil]
  rw [dispenseOps, filterMap_flatten_cols]
  have : ∀ c ∈ List.range (shape1 d),
      (dispenseColOps d c).filterMap (fun op => match op with
        | Op.dispensePlate c _ _ _ => some c | _ => none)
        = if plateBatch d 1 c ≠ [] then [c] else [] := by
    intro c _
    rw [dispenseColOps_eq]
    by_cases h : plateBatch d 1 c = []
    · rw [if_pos h, if_neg (fun hn => hn h)]
      rfl
    · rw [if_neg h, if_pos h]
      rfl
  rw [List.map_congr_left this, flatten_map_ite]

theorem aspirateColumnsOf_update_plate (d : List (List Int)) :
    aspirateColumnsOf (update_plate_ops d)
      = ((List.range (shape1 d)).filter
          (fun c => decide (plateBatch d (-1) c ≠ []))).reverse := by
  rw [update_plate_ops, aspirateColumnsOf]
  simp only [List.filterMap_append]
  have h1 : ([Op.pickUpTips] : List Op).filterMap (fun op => match op with
      | Op.aspiratePlate c _ _ _ => some c | _ => none) = [] := rfl
  have h2 : ([Op.returnTips] : List Op).filterMap (fun op => match op with
      | Op.aspiratePlate c _ _ _ => some c | _ => none) = [] := rfl
  have hta : (troughAspirateOps d).filterMap (fun op => match op with
      | Op.aspiratePlate c _ _ _ => some c | _ => none) = [] := by
    rw [troughAspirateOps_eq]
    by_cases he : ((List.range 8).filter (fun c => decide (0 < (needExcess d).1 c))) = []
    · rw [if_pos he]
      rfl
    · rw [if_neg he]
      rfl
  have htd : (troughDispenseOps d).filterMap (fun op => match op with
      | Op.aspiratePlate c _ _ _ => some c | _ => none) = [] := by
    rw [troughDispenseOps_eq]
    by_cases he : ((List.range 8).filter (fun c => decide (0 < (needExcess d).2 c))) = []
    · rw [if_pos he]
      rfl
    · rw [if_neg he]
      rfl
  have hdsp : (dispenseOps d).filterMap (fun op => match op with
      | Op.aspiratePlate c _ _ _ => some c | _ => none) = [] := by
    rw [dispenseOps, filterMap_flatten_cols]
    have : ∀ c ∈ List.range (shape1 d),
        (dispenseColOps d c).filterMap (fun op => match op with
          | Op.aspiratePlate c _ _ _ => some c | _ => none) = [] := by
      intro c _
      rw [dispenseColOps_eq]
      by_cases h : plateBatch d 1 c = []
      · rw [if_pos h]
        rfl
      · rw [if_neg h]
        rfl
    rw [List.map_congr_left this]
    simp [map_constant]
  rw [h1, h2, hta, htd, hdsp, List.nil_append, List.nil_append, List.nil_append,
    List.append_nil, List.append_nil]
  rw [aspirateOps, filterMap_flatten_cols]
  have : ∀ c ∈ (List.range (shape1 d)).reverse,
      (aspirateColOps d c).filterMap (fun op => match op with
        | Op.aspiratePlate c _ _ _ => some c | _ => none)
        = if plateBatch d (-1) c ≠ [] then [c] else [] := by
    intro c _
    rw [aspirateColOps_eq]
    by_cases h : plateBatch d (-1) c = []
    · rw [if_pos h, if_neg (fun hn => hn h)]
      rfl
    · rw [if_neg h, if_pos h]
      rfl
  rw [List.map_congr_left this, flatten_map_ite, List.filter_reverse]

/-- Claim C3: the into-plate dispense batches are issued in strictly ascending
column order — one batch per column containing a `+1` entry — the from-plate
aspirate batches in strictly descending column order — one per column with a
`-1` entry — every batched volume list is `ALIVE_VOLUME` per qualifying well,
and no batched operation is ever issued with an empty channel list. -/
theorem C3_sweep_order (d : List (List Int)) :
    dispenseColumnsOf (update_plate_ops d)
        = (List.range (shape1 d)).filter (fun c => decide (plateBatch d 1 c ≠ [])) ∧
      List.Pairwise (· < ·) (dispenseColumnsOf (update_plate_ops d)) ∧
      aspirateColumnsOf (update_plate_ops d)
        = ((List.range (shape1 d)).filter
            (fun c => decide (plateBatch d (-1) c ≠ []))).reverse ∧
      List.Pairwise (· > ·) (aspirateColumnsOf (update_plate_ops d)) ∧
      (∀ c, plateBatch d 1 c ≠ [] ↔ ∃ r, r < shape0 d ∧ dcell d r c = 1) ∧
      (∀ c, plateBatch d (-1) c ≠ [] ↔ ∃ r, r < shape0 d ∧ dcell d r c = -1) ∧
      (∀ op ∈ update_plate_ops d, batchChannels op ≠ some []) ∧
      (∀ op ∈ update_plate_ops d, ∀ col w v ch,
        op = Op.dispensePlate col w v ch ∨ op = Op.aspiratePlate col w v ch →
          v = List.replicate ch.length ALIVE_VOLUME) := by
  refine ⟨dispenseColumnsOf_update_plate d, ?_, aspirateColumnsOf_update_plate d, ?_,
    ?_, ?_, ?_, ?_⟩
  · rw [dispenseColumnsOf_update_plate d]
    exact (List.pairwise_lt_range (shape1 d)).filter _
  · rw [aspirateColumnsOf_update_plate d]
    rw [List.pairwise_reverse]
    exact (List.pairwise_lt_range (shape1 d)).filter _
  · intro c
    constructor
    · intro h
      obtain ⟨r, hr⟩ := List.exists_mem_of_ne_nil _ h
      rw [mem_plateBatch] at hr
      exact ⟨r, hr⟩
    · rintro ⟨r, hr, hv⟩ hnil
      have : r ∈ plateBatch d 1 c := mem_plateBatch.mpr ⟨hr, hv⟩
      rw [hnil] at this
      exact absurd this (List.not_mem_nil r)
  · intro c
    constructor
    · intro h
      obtain ⟨r, hr⟩ := List.exists_mem_of_ne_nil _ h
      rw [mem_plateBatch] at hr
      exact ⟨r, hr⟩
    · rintro ⟨r, hr, hv⟩ hnil
      have : r ∈ plateBatch d (-1) c := mem_plateBatch.mpr ⟨hr, hv⟩
      rw [hnil] at this
      exact absurd this (List.not_mem_nil r)
  · intro op hop
    rw [mem_update_plate_ops] at hop
    rcases hop with rfl | h | h | h | h | rfl
    · simp [batchChannels]
    · obtain ⟨ch, v, rfl⟩ : ∃ ch v, op = Op.aspirateTrough ch v := by
        rw [troughAspirateOps_eq] at h
        by_cases he : ((List.range 8).filter
            (fun c => decide (0 < (needExcess d).1 c))) = []
        · rw [if_pos he] at h
          exact absurd h (List.not_mem_nil _)
        · rw [if_neg he, List.mem_singleton] at h
          exact ⟨_, _, h⟩
      have := aspirateTrough_mem (d := d) (by
        rw [mem_update_plate_ops]
        exact Or.inr (Or.inl h))
      intro hch
      exact this.2.2 (Option.some.inj hch)
    · rw [mem_dispenseOps] at h
      obtain ⟨c, _, hb, rfl⟩ := h
      exact fun hx => hb (Option.some.inj hx)
    · rw [mem_aspirateOps] at h
      obtain ⟨c, _, hb, rfl⟩ := h
      exact fun hx => hb (Option.some.inj hx)
    · obtain ⟨ch, v, rfl⟩ : ∃ ch v, op = Op.dispenseTrough ch v := by
        rw [troughDispenseOps_eq] at h
        by_cases he : ((List.range 8).filter
            (fun c => decide (0 < (needExcess d).2 c))) = []
        · rw [if_pos he] at h
          exact absurd h (List.not_mem_nil _)
        · rw [if_neg he, List.mem_singleton] at h
          exact ⟨_, _, h⟩
      have := dispenseTrough_mem (d := d) (by
        rw [mem_update_plate_ops]
        exact Or.inr (Or.inr (Or.inr (Or.inr (Or.inl h)))))
      intro hch
      exact this.2.2 (Option.some.inj hch)
    · simp [batchChannels]
  · rintro op hop col w v ch (rfl | rfl)
    · obtain ⟨_, _, _, hv, hch⟩ := dispensePlate_mem hop
      rw [hv, hch, map_constant]
    · obtain ⟨_, _, _, hv, hch⟩ := aspiratePlate_mem hop
      rw [hv, hch, map_constant]

/-- Witness for C3 at the 8×2 grid with `+1` entries in both columns and a
`-1` in column 1: dispense columns `[0, 1]`, aspirate columns `[1]`. -/
theorem C3_sweep_order_witness :
    dispenseColumnsOf (update_plate_ops [[1, 0], [-1, 1], [0, 0], [0, 0],
        [0, 0], [0, 0], [0, 0], [0, 0]]) = [0, 1]
      ∧ aspirateColumnsOf (update_plate_ops [[1, 0], [-1, 1], [0, 0], [0, 0],
        [0, 0], [0, 0], [0, 0], [0, 0]]) = [0] := by
  constructor
  · rw [(C3_sweep_order [[1, 0], [-1, 1], [0, 0], [0, 0],
      [0, 0], [0, 0], [0, 0], [0, 0]]).1]
    decide
  · rw [(C3_sweep_order [[1, 0], [-1, 1], [0, 0], [0, 0],
      [0, 0], [0, 0], [0, 0], [0, 0]]).2.2.1]
    decide

theorem getD_map_lt (l : List Nat) (f : Nat → Nat) (i : Nat) (hi : i < l.length) :
    (l.map f).getD i 0 = f (l.getD i 0) := by
  rw [List.getD_eq_getElem _ _ (by simpa using hi), List.getElem_map,
    List.getD_eq_getElem _ _ hi]

theorem plateBatch_pairwise (d : List (List Int)) (v : Int) (c : Nat) :
    List.Pairwise (· < ·) (plateBatch d v c) :=
  (List.pairwise_lt_range (shape0 d)).filter _

/-- Claim C9: in every batched plate dispense or aspirate, the `i`-th channel
equals the row of the `i`-th well (`well_ids[i] = column * 8 + channels[i]`,
so `well_ids[i] % 8 = channels[i]`), both lists are strictly increasing, and
all wells of one batch lie in the op's single column — each channel only
touches wells in its own row. -/
theorem C9_channel_well_pairing (d : List (List Int)) (h8 : shape0 d = 8) :
    ∀ op ∈ update_plate_ops d, ∀ col w v ch,
      op = Op.dispensePlate col w v ch ∨ op = Op.aspiratePlate col w v ch →
        w = ch.map (fun row => col * 8 + row) ∧
        ch.length = w.length ∧
        List.Pairwise (· < ·) ch ∧
        List.Pairwise (· < ·) w ∧
        (∀ r ∈ ch, r < 8) ∧
        (∀ i, i < w.length → w.getD i 0 = col * 8 + ch.getD i 0 ∧
          w.getD i 0 % 8 = ch.getD i 0 ∧ w.getD i 0 / 8 = col) := by
  have main8 : ∀ (col : Nat) (b : List Nat), b = plateBatch d 1 col ∨ b = plateBatch d (-1) col →
      (b.map (fun row => col * 8 + row) = b.map (fun row => col * 8 + row) ∧
        b.length = (b.map (fun row => col * 8 + row)).length ∧
        List.Pairwise (· < ·) b ∧
        List.Pairwise (· < ·) (b.map (fun row => col * 8 + row)) ∧
        (∀ r ∈ b, r < 8) ∧
        (∀ i, i < (b.map (fun row => col * 8 + row)).length →
          (b.map (fun row => col * 8 + row)).getD i 0 = col * 8 + b.getD i 0 ∧
          (b.map (fun row => col * 8 + row)).getD i 0 % 8 = b.getD i 0 ∧
          (b.map (fun row => col * 8 + row)).getD i 0 / 8 = col)) := by
    intro col b hb
    have hpw : List.Pairwise (· < ·) b := by
      rcases hb with rfl | rfl <;> exact plateBatch_pairwise d _ col
    have hmem : ∀ r ∈ b, r < 8 := by
      intro r hr
      rcases hb with rfl | rfl <;>
        · rw [mem_plateBatch] at hr
          omega
    refine ⟨rfl, (List.length_map _ _).symm, hpw, ?_, hmem, ?_⟩
    · rw [List.pairwise_map]
      exact hpw.imp (fun h => by omega)
    · intro i hi
      rw [List.length_map] at hi
      have h1 : (b.map (fun row => col * 8 + row)).getD i 0 = col * 8 + b.getD i 0 :=
        getD_map_lt b _ i hi
      have h2 : b.getD i 0 < 8 := by
        have := hmem (b.getD i 0) (by
          rw [List.getD_eq_getElem _ _ hi]
          exact List.getElem_mem hi)
        omega
      refine ⟨h1, ?_, ?_⟩
      · rw [h1]
        omega
      · rw [h1]
        omega
  rintro op hop col w v ch (rfl | rfl)
  · obtain ⟨_, _, hw, _, hch⟩ := dispensePlate_mem hop
    rw [hw, hch]
    exact main8 col (plateBatch d 1 col) (Or.inl rfl)
  · obtain ⟨_, _, hw, _, hch⟩ := aspiratePlate_mem hop
    rw [hw, hch]
    exact main8 col (plateBatch d (-1) col) (Or.inr rfl)

/-- Witness for C9 at the 8×2 grid with wells `(0,0) ↦ +1`, `(1,1) ↦ +1`,
`(1,0) ↦ −1`: the column-1 dispense batch pairs channel 1 with well 9. -/
theorem C9_channel_well_pairing_witness :
    ([9] : List Nat) = ([1] : List Nat).map (fun row => 1 * 8 + row) :=
  (C9_channel_well_pairing [[1, 0], [-1, 1], [0, 0], [0, 0], [0, 0], [0, 0], [0, 0], [0, 0]]
      rfl (Op.dispensePlate 1 [9] [100] [1]) (by decide) 1 [9] [100] [1]
      (Or.inl rfl)).1

/-- Witness for C10 at the 8×1 grid `[[1], [-1], 0…]`: 100 µL in from the
reservoir and 100 µL back out. -/
theorem C10_volume_conservation_witness :
    aspTroughTotal (update_plate_ops [[1], [-1], [0], [0], [0], [0], [0], [0]])
        = dispPlateTotal (update_plate_ops [[1], [-1], [0], [0], [0], [0], [0], [0]]) ∧
      aspPlateTotal (update_plate_ops [[1], [-1], [0], [0], [0], [0], [0], [0]])
        = dispTroughTotal (update_plate_ops [[1], [-1], [0], [0], [0], [0], [0], [0]]) :=
  C10_volume_conservation [[1], [-1], [0], [0], [0], [0], [0], [0]] rfl

/-! The clipped window sum of `compute_next_state` versus the spec's
Moore-neighborhood count. -/

theorem range'_eq_filter_range (a b : Nat) :
    ∀ n, List.range' a (min b n - a) = (List.range n).filter
      (fun i => decide (a ≤ i ∧ i < b)) := by
  intro n
  induction n with
  | zero => simp
  | succ n ih =>
    rw [List.range_succ, List.filter_append]
    by_cases hb : b ≤ n
    · have h1 : min b (n + 1) = b := by omega
      have h2 : min b n = b := by omega
      rw [h1] at *
      rw [h2] at ih
      rw [← ih]
      have : ¬(a ≤ n ∧ n < b) := by omega
      simp [this]
    · have h1 : min b (n + 1) = n + 1 := by omega
      have h2 : min b n = n := by omega
      rw [h1]
      rw [h2] at ih
      by_cases ha : a ≤ n
      · have h3 : n + 1 - a = (n - a) + 1 := by omega
        rw [h3, List.range'_concat, ih]
        have h4 : a + 1 * (n - a) = n := by omega
        rw [h4]
        have : (a ≤ n ∧ n < b) := by omega
        simp [this]
      · have h3 : n + 1 - a = 0 := by omega
        have h4 : n - a = 0 := by omega
        rw [h3]
        rw [h4] at ih
        rw [ih]
        have : ¬(a ≤ n ∧ n < b) := by omega
        simp [this]

theorem map_sum_over_filter (L : List Nat) (P : Nat → Prop) [DecidablePred P]
    (g : Nat → Nat) :
    ((L.filter (fun x => decide (P x))).map g).sum
      = (L.map (fun x => if P x then g x else 0)).sum := by
  induction L with
  | nil => rfl
  | cons a t ih =>
    by_cases h : P a
    · simp [List.filter_cons, h, ih]
    · simp [List.filter_cons, h, ih]

theorem filter_length_split (l : List Nat) (c : Nat) (p : Nat → Bool) :
    ∀ (_ : l.Nodup) (_ : c ∈ l),
    (l.filter p).length
      = (l.filter (fun x => decide (x ≠ c) && p x)).length + (if p c then 1 else 0) := by
  induction l with
  | nil =>
    intro _ hc
    exact absurd hc (List.not_mem_nil c)
  | cons a t ih =>
    intro hnd hc
    rw [List.nodup_cons] at hnd
    rw [List.mem_cons] at hc
    rcases hc with rfl | hc
    · have htail : t.filter (fun x => decide (x ≠ c) && p x) = t.filter p := by
        apply List.filter_congr
        intro x hx
        have : x ≠ c := fun hxc => hnd.1 (hxc ▸ hx)
        simp [this]
      rw [List.filter_cons, List.filter_cons, htail]
      by_cases hp : p c = true
      · rw [hp]
        simp
      · rw [Bool.not_eq_true] at hp
        rw [hp]
        simp
    · have hac : a ≠ c := fun h => hnd.1 (h ▸ hc)
      have hd : decide (a ≠ c) = true := decide_eq_true hac
      by_cases hp : p a = true
      · simp only [List.filter_cons, hp, hd, Bool.true_and, if_true, List.length_cons]
        rw [ih hnd.2 hc]
        omega
      · rw [Bool.not_eq_true] at hp
        simp only [List.filter_cons, hp, hd, Bool.true_and, Bool.false_eq_true, if_false]
        exact ih hnd.2 hc

theorem sum_map_indicator (R r : Nat) (hr : r < R) (k : Nat) :
    ((List.range R).map (fun nr => if nr = r then k else 0)).sum = k := by
  induction R with
  | zero => omega
  | succ m ih =>
    rw [List.range_succ, List.map_append, List.sum_append]
    simp only [List.map_cons, List.map_nil, List.sum_cons, List.sum_nil]
    by_cases hrm : r < m
    · rw [ih hrm, if_neg (by omega)]
      omega
    · have hrm' : r = m := by omega
      have hz : ((List.range m).map (fun nr => if nr = r then k else 0)).sum = 0 := by
        apply List.sum_eq_zero
        intro x hx
        rw [List.mem_map] at hx
        obtain ⟨nr, hnr, rfl⟩ := hx
        rw [List.mem_range] at hnr
        rw [if_neg (by omega)]
      rw [hz, if_pos hrm'.symm]
      omega

theorem sliceSum_eq_moore (s : List (List Bool)) (r c : Nat)
    (hr : r < shape0 s) (hc : c < shape1 s) :
    sliceSum s (r - 1) (min (r + 2) (shape0 s)) (c - 1) (min (c + 2) (shape1 s))
      = mooreCount s r c + (if cell s r c then 1 else 0) := by
  rw [sliceSum, range'_eq_filter_range (r - 1) (r + 2) (shape0 s),
    range'_eq_filter_range (c - 1) (c + 2) (shape1 s)]
  rw [map_sum_over_filter (List.range (shape0 s)) (fun i => r - 1 ≤ i ∧ i < r + 2)]
  rw [mooreCount]
  have hsplit : ∀ nr ∈ List.range (shape0 s),
      (if r - 1 ≤ nr ∧ nr < r + 2 then
          (((List.range (shape1 s)).filter (fun i => decide (c - 1 ≤ i ∧ i < c + 2))).filter
            (fun nc => cell s nr nc)).length
        else 0)
      = ((List.range (shape1 s)).filter (fun nc =>
          decide (¬(nr = r ∧ nc = c) ∧ nr ≤ r + 1 ∧ r ≤ nr + 1 ∧ nc ≤ c + 1 ∧
            c ≤ nc + 1 ∧ cell s nr nc = true))).length
        + (if nr = r then (if cell s r c then 1 else 0) else 0) := by
    intro nr hnr
    rw [List.mem_range] at hnr
    rw [List.filter_filter]
    by_cases hP : r - 1 ≤ nr ∧ nr < r + 2
    · rw [if_pos hP]
      by_cases hnr_r : nr = r
      · subst hnr_r
        rw [if_pos rfl]
        rw [filter_length_split (List.range (shape1 s)) c
          (fun nc => cell s nr nc && decide (c - 1 ≤ nc ∧ nc < c + 2))
          (List.nodup_range (shape1 s)) (List.mem_range.mpr hc)]
        have hfc : (List.range (shape1 s)).filter
            (fun x => decide (x ≠ c) &&
              (cell s nr x && decide (c - 1 ≤ x ∧ x < c + 2)))
            = (List.range (shape1 s)).filter (fun nc =>
              decide (¬(nr = nr ∧ nc = c) ∧ nr ≤ nr + 1 ∧ nr ≤ nr + 1 ∧ nc ≤ c + 1 ∧
                c ≤ nc + 1 ∧ cell s nr nc = true)) := by
          apply List.filter_congr
          intro x _
          by_cases hcl : cell s nr x = true
          · rw [hcl, Bool.true_and, ← Bool.decide_and, decide_eq_decide]
            constructor
            · rintro ⟨h1, h2, h3⟩
              exact ⟨fun hh => h1 hh.2, by omega, by omega, by omega, by omega, rfl⟩
            · rintro ⟨h1, -, -, h4, h5, -⟩
              exact ⟨fun hx => h1 ⟨rfl, hx⟩, by omega, by omega⟩
          · rw [Bool.not_eq_true] at hcl
            rw [hcl]
            simp [hcl]
        rw [hfc]
        have hpc : (cell s nr c && decide (c - 1 ≤ c ∧ c < c + 2)) = cell s nr c := by
          rw [decide_eq_true (show c - 1 ≤ c ∧ c < c + 2 by omega), Bool.and_true]
        rw [hpc]
      · rw [if_neg hnr_r, Nat.add_zero]
        apply congrArg List.length
        apply List.filter_congr
        intro x _
        by_cases hcl : cell s nr x = true
        · rw [hcl, Bool.true_and, decide_eq_decide]
          constructor
          · rintro ⟨h1, h2⟩
            exact ⟨fun hh => hnr_r hh.1, by omega, by omega, by omega, by omega, rfl⟩
          · rintro ⟨-, -, -, h4, h5, -⟩
            exact ⟨by omega, by omega⟩
        · rw [Bool.not_eq_true] at hcl
          rw [hcl]
          simp [hcl]
    · rw [if_neg hP]
      have hne : nr ≠ r := fun h => hP (by omega)
      rw [if_neg hne, Nat.add_zero]
      symm
      rw [List.length_eq_zero]
      rw [List.filter_eq_nil_iff]
      intro x _
      simp only [decide_eq_true_eq]
      rintro ⟨-, hb1, hb2, -⟩
      exact hP (by omega)
  rw [List.map_congr_left hsplit]
  have hadd := sum_map_add (List.range (shape0 s))
    (fun nr => ((List.range (shape1 s)).filter (fun nc =>
      decide (¬(nr = r ∧ nc = c) ∧ nr ≤ r + 1 ∧ r ≤ nr + 1 ∧ nc ≤ c + 1 ∧
        c ≤ nc + 1 ∧ cell s nr nc = true))).length)
    (fun nr => if nr = r then (if cell s r c then 1 else 0) else 0)
  rw [hadd, sum_map_indicator (shape0 s) r hr]

theorem getD_map_elem {α β : Type} (l : List α) (f : α → β) (i : Nat) (dflt : β)
    (hi : i < l.length) : (l.map f).getD i dflt = f l[i] := by
  rw [List.getD_eq_getElem _ _ (by simpa using hi), List.getElem_map]

theorem cell_compute_next_state (s : List (List Bool)) (r c : Nat)
    (hr : r < shape0 s) (hc : c < shape1 s) :
    cell (compute_next_state s) r c
      = (if (sliceSum s (r - 1) (min (r + 2) (shape0 s)) (c - 1) (min (c + 2) (shape1 s))
              - (if cell s r c then 1 else 0)) < 2 then false
         else if (sliceSum s (r - 1) (min (r + 2) (shape0 s))
              (c - 1) (min (c + 2) (shape1 s))
              - (if cell s r c then 1 else 0)) = 2 then cell s r c
         else if (sliceSum s (r - 1) (min (r + 2) (shape0 s))
              (c - 1) (min (c + 2) (shape1 s))
              - (if cell s r c then 1 else 0)) = 3 then true
         else false) := by
  conv_lhs => rw [cell, compute_next_state]
  rw [getD_map_elem _ _ r [] (by simpa using hr), List.getElem_range,
    getD_map_elem _ _ c false (by simpa using hc), List.getElem_range]

/-- Claim C2: `compute_next_state` preserves the grid shape, and each output
cell is the transition rule applied to the count of living cells in the
in-bounds Moore neighborhood of the cell (the cell itself excluded, no
wraparound): `< 2` dead, `= 2` retain, `= 3` alive, `> 3` dead; in particular
a 3×3 grid with only the center cell alive steps to the all-dead grid. -/
theorem C2_next_state_rule (s : List (List Bool))
    (hrect : ∀ row ∈ s, row.length = shape1 s) :
    shape0 (compute_next_state s) = shape0 s ∧
    shape1 (compute_next_state s) = shape1 s ∧
    (∀ row ∈ compute_next_state s, row.length = shape1 s) ∧
    (∀ r c, r < shape0 s → c < shape1 s →
      cell (compute_next_state s) r c = lifeRule (mooreCount s r c) (cell s r c)) ∧
    compute_next_state [[false, false, false], [false, true, false], [false, false, false]]
      = [[false, false, false], [false, false, false], [false, false, false]] := by
  refine ⟨?_, ?_, ?_, ?_, by decide⟩
  · rw [shape0, compute_next_state, List.length_map, List.length_range]
  · by_cases h0 : shape0 s = 0
    · have hs : s = [] := List.length_eq_zero.mp h0
      subst hs
      rfl
    · have hcg : ∀ (l : List (List Bool)), l.headD [] = l.getD 0 [] := by
        intro l
        cases l <;> rfl
      rw [shape1, hcg, compute_next_state,
        getD_map_elem _ _ 0 [] (by simpa using Nat.pos_of_ne_zero h0), List.getElem_range,
        List.length_map, List.length_range]
  · intro row hrow
    rw [compute_next_state, List.mem_map] at hrow
    obtain ⟨nr, _, rfl⟩ := hrow
    rw [List.length_map, List.length_range]
  · intro r c hr hc
    rw [cell_compute_next_state s r c hr hc, sliceSum_eq_moore s r c hr hc,
      Nat.add_sub_cancel, lifeRule]

/-- Witness for C2 at the 3×3 grid with only the center alive: the corner
cell follows the rule with its Moore count. -/
theorem C2_next_state_rule_witness :
    cell (compute_next_state [[false, false, false], [false, true, false],
        [false, false, false]]) 0 0
      = lifeRule (mooreCount [[false, false, false], [false, true, false],
          [false, false, false]] 0 0)
        (cell [[false, false, false], [false, true, false], [false, false, false]] 0 0) :=
  (C2_next_state_rule [[false, false, false], [false, true, false], [false, false, false]]
    (by decide)).2.2.2.1 0 0 (by decide) (by decide)

/-! The control loop and its error model. -/

theorem runOps_none_iff (g : Op → Bool) (l : List Op) :
    (runOps g l).2 = none ↔ ∀ op ∈ l, g op = true → isDispenseTrough op = true := by
  induction l with
  | nil => simp [runOps]
  | cons op rest ih =>
    by_cases hf : g op = true
    · by_cases ht : isDispenseTrough op = true
      · simp [runOps, hf, ht, ih]
      · simp [runOps, hf, ht]
    · rw [Bool.not_eq_true] at hf
      simp [runOps, hf, ih]

theorem runOps_all_tolerated (g : Op → Bool)
    (hg : ∀ op, g op = true → isDispenseTrough op = true) :
    ∀ l, runOps g l = (l, none) := by
  intro l
  induction l with
  | nil => rfl
  | cons op rest ih =>
    by_cases hf : g op = true
    · have ht := hg op hf
      simp [runOps, hf, ht, ih]
    · rw [Bool.not_eq_true] at hf
      simp [runOps, hf, ih]

theorem main_loop_head_read (readings : Nat → List (List ℚ)) (fails : Op → Bool)
    (c fuel : Nat) :
    Ev.read c ∈ (main_loop readings fails c (fuel + 1)).1 := by
  simp only [main_loop]
  by_cases hfix : compute_next_state (read_state (readings c)) = read_state (readings c)
  · rw [if_pos hfix]
    simp
  · rw [if_neg hfix]
    rcases hx : (runOps fails (update_plate_ops (diffGrid
        (compute_next_state (read_state (readings c))) (read_state (readings c))))).2
      with _ | op <;> simp [hx]

/-- Claim C5: if the only hardware call that can fail is the excess dispense
back into the trough, its failure is caught rather than propagated: all calls
of the cycle — `return_tips` included — are still issued, and the loop goes on
to the next cycle's read.  Conversely a run of `update_plate` propagates no
error exactly when every failing op is the excess dispense: any other failing
step aborts. -/
theorem C5_excess_failure_tolerated (readings : Nat → List (List ℚ))
    (fails : Op → Bool) (c fuel : Nat)
    (hfail : ∀ op, fails op = true → isDispenseTrough op = true)
    (hnfix : compute_next_state (read_state (readings c)) ≠ read_state (readings c)) :
    (∀ l : List Op, runOps fails l = (l, none)) ∧
    Op.returnTips ∈ (runOps fails (update_plate_ops (diffGrid
        (compute_next_state (read_state (readings c)))
        (read_state (readings c))))).1 ∧
    Ev.read (c + 1) ∈ (main_loop readings fails c (fuel + 2)).1 ∧
    (∀ (g : Op → Bool) (l : List Op),
      (runOps g l).2 = none ↔ ∀ op ∈ l, g op = true → isDispenseTrough op = true) := by
  refine ⟨runOps_all_tolerated fails hfail, ?_, ?_, runOps_none_iff⟩
  · rw [runOps_all_tolerated fails hfail]
    rw [mem_update_plate_ops]
    exact Or.inr (Or.inr (Or.inr (Or.inr (Or.inr rfl))))
  · simp only [main_loop]
    rw [if_neg hnfix]
    rw [runOps_all_tolerated fails hfail]
    simp only [List.mem_cons, List.mem_append]
    right
    right
    exact main_loop_head_read readings fails (c + 1) fuel

/-- Witness for C5: with a failure oracle that fails exactly the trough
dispenses, and a reading that keeps the single well alive (so each cycle has
work), cycle 1's read still happens. -/
theorem C5_excess_failure_tolerated_witness :
    Ev.read 1 ∈ (main_loop (fun _ => [[1]]) isDispenseTrough 0 2).1 :=
  (C5_excess_failure_tolerated (fun _ => [[1]]) isDispenseTrough 0 0
    (fun _ h => h) (by decide)).2.2.1

/-- Claim C6: in every cycle whose computed next state equals the current
state (a fixed point), the loop stops in the Terminated state, having issued
zero transfer operations that cycle — `update_plate` is never invoked. -/
theorem C6_fixed_point_terminates (readings : Nat → List (List ℚ))
    (fails : Op → Bool) (c fuel : Nat)
    (hfix : compute_next_state (read_state (readings c)) = read_state (readings c)) :
    main_loop readings fails c (fuel + 1)
      = ([Ev.read c, Ev.stopLH, Ev.stopPR], EndState.Terminated) := by
  simp only [main_loop]
  rw [if_pos hfix]

/-- Witness for C6: an all-dead 1×1 grid is a fixed point, and the loop
terminates right after reading it. -/
theorem C6_fixed_point_terminates_witness :
    main_loop (fun _ => [[0]]) (fun _ => false) 0 1
      = ([Ev.read 0, Ev.stopLH, Ev.stopPR], EndState.Terminated) :=
  C6_fixed_point_terminates (fun _ => [[0]]) (fun _ => false) 0 0 (by decide)

/-- Counterexample to C7 as stated: with `max_cycles = 0` the while-loop body
never runs, so the run performs zero plate reads — not "exactly one read". -/
theorem C7_zero_cycles_counterexample :
    ¬((main (fun _ => [[1]]) (fun _ => false) 0).1.countP isReadEv = 1) := by
  decide

/-- Claim C7 (amended): running with `max_cycles = 0` performs zero transfers
and zero reads; the loop exits immediately in the Exhausted state, emitting
only the two teardown events. -/
theorem C7_zero_cycles (readings : Nat → List (List ℚ)) (fails : Op → Bool) :
    main readings fails 0 = ([Ev.stopLH, Ev.stopPR], EndState.Exhausted) := rfl

/-- Counterexample to C8 as stated: when a hardware call other than the excess
dispense fails, the exception propagates out of `main` and neither
`lh.stop()` nor `pr.stop()` runs — teardown is not attempted on a fatal
error. -/
theorem C8_teardown_counterexample :
    Ev.stopLH ∉ (main (fun _ => [[1]]) (fun _ => true) 1).1 ∧
    Ev.stopPR ∉ (main (fun _ => [[1]]) (fun _ => true) 1).1 ∧
    (main (fun _ => [[1]]) (fun _ => true) 1).2 = EndState.Aborted := by
  decide

/-- Claim C8 (amended): the loop performs hardware teardown (both stops)
whenever it ends in the normal Terminated or Exhausted states; when a fatal
hardware error aborts the run, the teardown events do not occur. -/
theorem C8_teardown (readings : Nat → List (List ℚ)) (fails : Op → Bool) :
    ∀ fuel c,
      (((main_loop readings fails c fuel).2 = EndState.Terminated ∨
          (main_loop readings fails c fuel).2 = EndState.Exhausted) →
        Ev.stopLH ∈ (main_loop readings fails c fuel).1 ∧
        Ev.stopPR ∈ (main_loop readings fails c fuel).1) ∧
      ((main_loop readings fails c fuel).2 = EndState.Aborted →
        Ev.stopLH ∉ (main_loop readings fails c fuel).1 ∧
        Ev.stopPR ∉ (main_loop readings fails c fuel).1) := by
  intro fuel
  induction fuel with
  | zero =>
    intro c
    constructor
    · intro _
      simp [main_loop]
    · intro h
      exact absurd h (by simp [main_loop])
  | succ fuel ih =>
    intro c
    simp only [main_loop]
    by_cases hfix : compute_next_state (read_state (readings c)) = read_state (readings c)
    · rw [if_pos hfix]
      constructor
      · intro _
        simp
      · intro h
        exact absurd h (by simp)
    · rw [if_neg hfix]
      rcases hx : (runOps fails (update_plate_ops (diffGrid
          (compute_next_state (read_state (readings c)))
          (read_state (readings c))))).2 with _ | op
      · simp only [hx]
        constructor
        · intro hend
          have := (ih (c + 1)).1 hend
          simp only [List.mem_cons, List.mem_append]
          exact ⟨Or.inr (Or.inr this.1), Or.inr (Or.inr this.2)⟩
        · intro hend
          have := (ih (c + 1)).2 hend
          simp only [List.mem_cons, List.mem_append, List.mem_map]
          constructor
          · rintro (h | h | h)
            · exact absurd h (by simp)
            · obtain ⟨op', _, h'⟩ := h
              exact absurd h' (by simp)
            · exact this.1 h
          · rintro (h | h | h)
            · exact absurd h (by simp)
            · obtain ⟨op', _, h'⟩ := h
              exact absurd h' (by simp)
            · exact this.2 h
      · simp only [hx]
        constructor
        · rintro (h | h) <;> exact absurd h (by simp)
        · intro _
          simp only [List.mem_cons, List.mem_map]
          constructor
          · rintro (h | h)
            · exact absurd h (by simp)
            · obtain ⟨op', _, h'⟩ := h
              exact absurd h' (by simp)
          · rintro (h | h)
            · exact absurd h (by simp)
            · obtain ⟨op', _, h'⟩ := h
              exact absurd h' (by simp)

/-- Witness for C8 (amended) on a fixed-point run: the Terminated end carries
both teardown events. -/
theorem C8_teardown_witness :
    Ev.stopLH ∈ (main_loop (fun _ => [[0]]) (fun _ => false) 0 1).1 ∧
    Ev.stopPR ∈ (main_loop (fun _ => [[0]]) (fun _ => false) 0 1).1 :=
  ((C8_teardown (fun _ => [[0]]) (fun _ => false)) 1 0).1 (Or.inl (by decide))

end GoL
